import Mathlib

/-!
# A verification of the spikeextractors core

Shallow embedding of the two abstract data-access contracts of the
repository: `RecordingExtractor` (continuous multi-channel traces, snippet
extraction with boundary zero-padding, epoch bookkeeping, frame/time
conversion) and `SortingExtractor` (per-unit properties).

Modelling conventions:
* Python ints are `Int`, floats that only ever hold exact values are `Rat`,
  numpy sample values are `Int` (the arithmetic verified here is index
  arithmetic; sample values are opaque payloads).
* Python dicts are association lists in insertion order with unique keys
  (CPython dicts preserve insertion order; assignment to an existing key
  keeps its position).
* A Python method that can raise is `Except PyErr`; a raise before any
  mutation means the caller's state is unchanged, which the `Except`-returning
  style makes explicit (no new state is produced on `.error`).
-/

namespace SpikeExtractors

/-- Python-style dynamic values, as far as the verified operations
inspect them: the `isinstance(…, int)` / `isinstance(…, str)` checks of
`SortingExtractor` need at least one non-int, non-str alternative. -/
inductive PyVal where
  | int : Int → PyVal
  | str : String → PyVal
  | float : Rat → PyVal
  deriving DecidableEq, Repr

/-- Error outcomes of the modelled methods.  `valueError` carries the
message of the Python `ValueError`; `keyError` is a failed dict subscript;
`nameError` is a read of an undefined name; `invalidRange` is the spec's
`InvalidRange` failure of the abstract `getTraces`. -/
inductive PyErr where
  | valueError : String → PyErr
  | keyError : PyErr
  | nameError : PyErr
  | invalidRange : PyErr
  deriving DecidableEq, Repr

/-- Python dict indexing `d[k]`: the value stored under key `k`, if present. -/
def dictGet {κ α : Type} [DecidableEq κ] : List (κ × α) → κ → Option α
  | [], _ => none
  | p :: rest, k => if p.1 = k then some p.2 else dictGet rest k

/-- Python dict assignment `d[k] = v`: overwrite in place if the key is
present (keeping its position, as CPython dicts do), else append at the end. -/
def dictInsert {κ α : Type} [DecidableEq κ] : List (κ × α) → κ → α → List (κ × α)
  | [], k, v => [(k, v)]
  | p :: rest, k, v => if p.1 = k then (k, v) :: rest else p :: dictInsert rest k v

/-- Python `del d[k]`: drop the binding of key `k` (a dict holds a key at
most once, so dropping every pair with that key is the same operation). -/
def dictErase {κ α : Type} [DecidableEq κ] (d : List (κ × α)) (k : κ) : List (κ × α) :=
  d.filter (fun p => p.1 ≠ k)

/-- Python string comparison `a < b` on the underlying code-point
sequences: lexicographic, character by character.  (Lean's `Char` order is
the code-point order, the same order Python uses.) -/
def pyStrLtAux : List Char → List Char → Bool
  | [], [] => false
  | [], _ :: _ => true
  | _ :: _, [] => false
  | c :: cs, d :: ds => if c < d then true else if d < c then false else pyStrLtAux cs ds

/-- Python `a < b` on strings. -/
def pyStrLt (a b : String) : Bool :=
  pyStrLtAux a.data b.data

/-- One stored epoch: the dict
`{'start_frame': int(start_frame), 'end_frame': int(end_frame)}`
built by `RecordingExtractor.addEpoch`. -/
structure Epoch where
  start_frame : Int
  end_frame : Int
  deriving DecidableEq, Repr

/-- Modelled from the spec: `getTraces`, `getNumChannels`, `getNumFrames`
and `getSamplingFrequency` are abstract methods (`pass` bodies) of
`RecordingExtractor`, specified as pure queries of an in-memory recording:
a channel count, a frame count, a sampling frequency (float > 0 is a
caller obligation, not enforced), and per-channel per-frame sample data.
Channels of the reference in-memory source are `0, …, numChannels-1`. -/
structure Recording where
  numChannels : Nat
  numFrames : Nat
  samplingFrequency : Rat
  data : Nat → Nat → Int

/-- Modelled from the spec: the abstract `getTraces(start_frame, end_frame,
channel_ids)` returns the 2D slice of the data, one row per requested
channel, columns `start_frame, …, end_frame - 1` (inclusive / exclusive),
and fails (`InvalidRange`) if `start_frame > end_frame`, either bound lies
outside `[0, numFrames]`, or a requested channel id is not present. -/
def getTraces (R : Recording) (start_frame end_frame : Int) (channel_ids : List Nat) :
    Except PyErr (List (List Int)) :=
  if 0 ≤ start_frame ∧ start_frame ≤ end_frame ∧ end_frame ≤ (R.numFrames : Int)
      ∧ ∀ c ∈ channel_ids, c < R.numChannels then
    .ok (channel_ids.map fun c =>
      (List.range (end_frame - start_frame).toNat).map fun i =>
        R.data c (start_frame.toNat + i))
  else .error .invalidRange

/-- `RecordingExtractor.frameToTime`: `frame / self.getSamplingFrequency()`. -/
def frameToTime (R : Recording) (frame : Rat) : Rat :=
  frame / R.samplingFrequency

/-- `RecordingExtractor.timeToFrame`: `time * self.getSamplingFrequency()`. -/
def timeToFrame (R : Recording) (time : Rat) : Rat :=
  time * R.samplingFrequency

/-- numpy slice assignment `row[b0:b1] = vals` on a 1D row, as used by
`getSnippets` (at every call site `0 ≤ b0`, `b1 ≤ len(row)` and
`b1 - b0 = len(vals)` hold, as established inside `snippetChunk_closed`):
position `j` takes `vals[j - b0]` inside the slice and keeps `row[j]`
outside it. -/
def overwriteSlice (row : List Int) (b0 b1 : Int) (vals : List Int) : List Int :=
  (List.range row.length).map fun (j : Nat) =>
    if b0 ≤ (j : Int) ∧ (j : Int) < b1 then vals.getD ((j : Int) - b0).toNat 0
    else row.getD j 0

/-- The body of the `getSnippets` loop for one start frame `s`
(`RecordingExtractor.getSnippets`, lines 151–166): start from a zero array
of shape `(len(channel_ids), snippet_len)`; if `0 <= s < num_frames`,
clip the window `[s - len_before, s + len_after)` independently on the
left (against 0) and on the right (against `num_frames`), fetch the
clipped window with `getTraces` and write it into the matching column
slice of the zero array.  The `let`-rebindings mirror the in-place
updates of `snippet_range` / `snippet_buffer`. -/
def snippetChunk (R : Recording) (snippet_len_before snippet_len_after : Nat) (s : Int)
    (channel_ids : List Nat) : Except PyErr (List (List Int)) :=
  let snippet_len := snippet_len_before + snippet_len_after
  let chunk := channel_ids.map fun _ => List.replicate snippet_len (0 : Int)
  if 0 ≤ s ∧ s < (R.numFrames : Int) then
    let r0 : Int := s - snippet_len_before
    let r1 : Int := s + snippet_len_after
    let b0 : Int := if r0 < 0 then 0 - r0 else 0
    let r0 : Int := if r0 < 0 then r0 - r0 else r0
    let b1 : Int := if (R.numFrames : Int) ≤ r1 then snippet_len - (r1 - R.numFrames)
      else snippet_len
    let r1 : Int := if (R.numFrames : Int) ≤ r1 then r1 - (r1 - R.numFrames) else r1
    match getTraces R r0 r1 channel_ids with
    | .ok traces => .ok (List.zipWith (fun z t => overwriteSlice z b0 b1 t) chunk traces)
    | .error e => .error e
  else
    .ok chunk

/-- The `for i in range(num_snippets)` loop of `getSnippets`: one chunk is
appended per start frame; an exception raised while building a chunk
aborts the whole call. -/
def snippetsLoop (R : Recording) (snippet_len_before snippet_len_after : Nat)
    (channel_ids : List Nat) : List Int → Except PyErr (List (List (List Int)))
  | [] => .ok []
  | s :: rest =>
    match snippetChunk R snippet_len_before snippet_len_after s channel_ids with
    | .ok chunk =>
      match snippetsLoop R snippet_len_before snippet_len_after channel_ids rest with
      | .ok more => .ok (chunk :: more)
      | .error e => .error e
    | .error e => .error e

/-- `RecordingExtractor.getSnippets`: default `channel_ids` is
`range(self.getNumChannels())`, then the per-start-frame loop. -/
def getSnippets (R : Recording) (snippet_len_before snippet_len_after : Nat)
    (start_frames : List Int) (channel_ids : Option (List Nat)) :
    Except PyErr (List (List (List Int))) :=
  let cids := channel_ids.getD (List.range R.numChannels)
  snippetsLoop R snippet_len_before snippet_len_after cids start_frames

/-- The epoch store of a `RecordingExtractor`: `self._epochs`, a dict from
epoch name to epoch info, `{}` after `__init__`. -/
abbrev Epochs := List (String × Epoch)

/-- `RecordingExtractor.addEpoch`: store
`{'start_frame': int(start_frame), 'end_frame': int(end_frame)}` under the
name, with no validation of the frames.  The `isinstance(epoch_name, str)`
check always passes here because the embedding types the name as a string
(no claim exercises the non-string branch); `int()` on an int is the
identity. -/
def addEpoch (epochs : Epochs) (epoch_name : String) (start_frame end_frame : Int) : Epochs :=
  dictInsert epochs epoch_name ⟨start_frame, end_frame⟩

/-- `RecordingExtractor.removeEpoch`: `del` the entry if the name is a
stored key, else `ValueError`. -/
def removeEpoch (epochs : Epochs) (epoch_name : String) : Except PyErr Epochs :=
  if (dictGet epochs epoch_name).isSome then
    .ok (dictErase epochs epoch_name)
  else .error (.valueError "This epoch has not been added")

/-- `RecordingExtractor.getEpochInfo`: the stored info dict if the name is
a stored key, else `ValueError`. -/
def getEpochInfo (epochs : Epochs) (epoch_name : String) : Except PyErr Epoch :=
  match dictGet epochs epoch_name with
  | some info => .ok info
  | none => .error (.valueError "This epoch has not been added")

/-- The comparison Python's `sorted` applies to the pairs
`zip(epoch_start_frames, epoch_names)` in `getEpochNames`: lexicographic
tuple order, start frame first, name second.  `sorted` is a stable sort by
the strict part of this order; because the order is total and two pairs
that compare equal in it are identical (names are dict keys), its output
is the unique `pairLe`-sorted permutation, which `List.mergeSort pairLe`
below also produces. -/
def pairLe (a b : Int × String) : Bool :=
  decide (a.1 < b.1) || (decide (a.1 = b.1) && (pyStrLt a.2 b.2 || decide (a.2 = b.2)))

/-- `RecordingExtractor.getEpochNames`: pair every stored name with the
start frame `getEpochInfo` reports for it, sort the pairs with Python's
`sorted`, return the names.  (The `.getD ⟨0, 0⟩` fallback is unreachable:
the names being looked up are exactly the stored keys.  The `if not
epoch_names` early return produces `[]`, which sorting `[]` also does.) -/
def getEpochNames (epochs : Epochs) : List String :=
  let epoch_names := epochs.map Prod.fst
  let keyed := epoch_names.map fun n => (((dictGet epochs n).getD ⟨0, 0⟩).start_frame, n)
  (keyed.mergeSort pairLe).map Prod.snd

/-- The well-formedness the spec's data model asserts for a stored epoch:
a non-negative start frame and an end frame at least the start frame. -/
def epochWF (ep : Epoch) : Prop :=
  0 ≤ ep.start_frame ∧ ep.start_frame ≤ ep.end_frame

instance : DecidablePred epochWF := fun ep =>
  inferInstanceAs (Decidable (0 ≤ ep.start_frame ∧ ep.start_frame ≤ ep.end_frame))

/-- The start frame `getEpochNames` keys a stored name by. -/
def epochKey (epochs : Epochs) (n : String) : Int :=
  ((dictGet epochs n).getD ⟨0, 0⟩).start_frame

/-- Modelled from the spec: `getUnitIds` is an abstract method (`pass`
body) of `SortingExtractor`, an ordered list of unit ids; modelled as a
field.  `unit_properties` is `self._unit_properties`, which `__init__`
sets to `{}` — nothing in the class ever creates a per-unit inner dict. -/
structure Sorting where
  unitIds : List Int
  unit_properties : List (Int × List (String × PyVal)) := []
  deriving DecidableEq, Repr

/-- `SortingExtractor.addUnitProperty`, exactly as written: validate that
`unit_id` is an int, that it is in `getUnitIds()` and that `property_name`
is a string (each failure a `ValueError`), then execute
`self._unit_properties[unit_id][property_name] = property_data` — whose
first subscript raises `KeyError` whenever the unit has no inner dict yet,
which is always the case since nothing ever creates one. -/
def addUnitProperty (S : Sorting) (unit_id property_name : PyVal) (property_data : PyVal) :
    Except PyErr Sorting :=
  match unit_id with
  | .int u =>
    if u ∈ S.unitIds then
      match property_name with
      | .str name =>
        match dictGet S.unit_properties u with
        | some props =>
          .ok { S with
            unit_properties := dictInsert S.unit_properties u (dictInsert props name property_data) }
        | none => .error .keyError
      | _ => .error (.valueError "property_name must be a string")
    else .error (.valueError "Non-valid unit_id")
  | _ => .error (.valueError "unit_id must be an int")

/-- `SortingExtractor.getUnitProperty`, exactly as written: its signature
is `getUnitProperty(self, property_name)` but its body immediately
evaluates `isinstance(unit_id, int)` where `unit_id` is an undefined name,
so every call raises `NameError` before reading anything. -/
def getUnitProperty (_S : Sorting) (_property_name : PyVal) : Except PyErr PyVal :=
  .error .nameError

/-- A concrete recording used as test input: one channel, 100 frames,
sample at frame `f` is `f + 1` (so no stored sample is zero). -/
def exampleRec : Recording where
  numChannels := 1
  numFrames := 100
  samplingFrequency := 2
  data := fun _ f => (f : Int) + 1

/-- A concrete freshly-initialized sorting extractor with one unit. -/
def exampleSorting : Sorting where
  unitIds := [1]
  unit_properties := []

/-! ## Dictionary lemmas -/

theorem dictGet_dictInsert_self {κ α : Type} [DecidableEq κ] (d : List (κ × α)) (k : κ) (v : α) :
    dictGet (dictInsert d k v) k = some v := by
  induction d with
  | nil => simp [dictGet, dictInsert]
  | cons p rest ih =>
    by_cases h : p.1 = k
    · simp [dictInsert, h, dictGet]
    · simp [dictInsert, h, dictGet, ih]

theorem dictGet_dictInsert_ne {κ α : Type} [DecidableEq κ] (d : List (κ × α)) {k k' : κ}
    (v : α) (h : k' ≠ k) : dictGet (dictInsert d k v) k' = dictGet d k' := by
  have hkk : ¬ k = k' := fun hk => h hk.symm
  induction d with
  | nil => simp [dictGet, dictInsert, hkk]
  | cons p rest ih =>
    by_cases hp : p.1 = k
    · have hp' : ¬ p.1 = k' := fun hk => hkk (hp ▸ hk)
      simp [dictInsert, hp, dictGet, hkk, hp']
    · simp only [dictInsert, if_neg hp, dictGet]
      by_cases hp' : p.1 = k'
      · simp [hp']
      · simp [hp', ih]

theorem dictGet_dictErase_self {κ α : Type} [DecidableEq κ] (d : List (κ × α)) (k : κ) :
    dictGet (dictErase d k) k = none := by
  induction d with
  | nil => rfl
  | cons p rest ih =>
    by_cases h : p.1 = k
    · simpa [dictErase, h] using ih
    · simpa [dictErase, dictGet, h] using ih

theorem dictGet_dictErase_ne {κ α : Type} [DecidableEq κ] (d : List (κ × α)) {k k' : κ}
    (h : k' ≠ k) : dictGet (dictErase d k) k' = dictGet d k' := by
  induction d with
  | nil => rfl
  | cons p rest ih =>
    by_cases hp : p.1 = k
    · have hp' : ¬ p.1 = k' := fun hk => h (hp ▸ hk).symm
      rw [show dictErase (p :: rest) k = dictErase rest k by simp [dictErase, hp]]
      rw [ih, dictGet, if_neg hp']
    · rw [show dictErase (p :: rest) k = p :: dictErase rest k by simp [dictErase, hp]]
      by_cases hp' : p.1 = k'
      · simp [dictGet, hp']
      · simp [dictGet, hp', ih]

theorem mem_dictInsert {κ α : Type} [DecidableEq κ] {d : List (κ × α)} {k : κ} {v : α}
    {p : κ × α} (hp : p ∈ dictInsert d k v) : p ∈ d ∨ p = (k, v) := by
  induction d with
  | nil => simpa [dictInsert] using hp
  | cons q rest ih =>
    by_cases hq : q.1 = k
    · simp only [dictInsert, if_pos hq, List.mem_cons] at hp
      rcases hp with h | h
      · exact Or.inr h
      · exact Or.inl (List.mem_cons_of_mem q h)
    · simp only [dictInsert, if_neg hq, List.mem_cons] at hp
      rcases hp with h | h
      · exact Or.inl (h ▸ List.mem_cons_self q rest)
      · rcases ih h with h' | h'
        · exact Or.inl (List.mem_cons_of_mem q h')
        · exact Or.inr h'

theorem removeEpoch_ok_eq {E E' : Epochs} {name : String}
    (h : removeEpoch E name = .ok E') : E' = dictErase E name := by
  unfold removeEpoch at h
  split at h
  · exact (Except.ok.injEq _ _ ▸ h).symm
  · exact absurd h (by simp)

/-! ## Claim theorems: properties, frame conversion, epochs -/

/-- C9: `frameToTime` and `timeToFrame` are a pure inverse pair: for every
sampling frequency > 0, `frameToTime f = f / fs`, `timeToFrame t = t * fs`,
and the two compositions are the identity, exactly over rational
arithmetic. -/
theorem frameToTime_timeToFrame_inverse (R : Recording)
    (h : 0 < R.samplingFrequency) :
    (∀ f : Rat, frameToTime R f = f / R.samplingFrequency) ∧
    (∀ t : Rat, timeToFrame R t = t * R.samplingFrequency) ∧
    (∀ t : Rat, frameToTime R (timeToFrame R t) = t) ∧
    (∀ f : Rat, timeToFrame R (frameToTime R f) = f) := by
  refine ⟨fun f => rfl, fun t => rfl, fun t => ?_, fun f => ?_⟩
  · unfold frameToTime timeToFrame
    exact mul_div_cancel_right₀ t (ne_of_gt h)
  · unfold frameToTime timeToFrame
    exact div_mul_cancel₀ f (ne_of_gt h)

/-- Witness for C9 at a concrete recording and concrete values. -/
theorem frameToTime_timeToFrame_inverse_witness :
    0 < exampleRec.samplingFrequency ∧
    frameToTime exampleRec (timeToFrame exampleRec 3) = 3 :=
  ⟨by norm_num [exampleRec],
   (frameToTime_timeToFrame_inverse exampleRec (by norm_num [exampleRec])).2.2.1 3⟩

/-- C4 (evaluating the code at the failing input): on a freshly
initialized extractor whose unit 1 is a valid unit id,
`addUnitProperty(1, "quality", 0.9)` raises `KeyError` (because
`self._unit_properties` has no inner dict for unit 1 and nothing ever
creates one), and every `getUnitProperty` call raises `NameError`
(its body reads `unit_id`, which its signature does not bind). -/
theorem addUnitProperty_getUnitProperty_broken :
    addUnitProperty exampleSorting (.int 1) (.str "quality") (.float (9 / 10)) =
      .error .keyError ∧
    getUnitProperty exampleSorting (.str "quality") = .error .nameError := by
  exact ⟨rfl, rfl⟩

/-- C8: `addUnitProperty` fails with a `ValueError` (the spec's
`InvalidArgument`) whenever the unit id is not an int, or is an int not in
`getUnitIds()`, or the property name is not a string; the error is raised
before any mutation, so no new store is produced. -/
theorem addUnitProperty_invalid (S : Sorting) (uid pname d : PyVal)
    (h : (∀ u : Int, uid ≠ .int u) ∨
         (∃ u : Int, uid = .int u ∧ u ∉ S.unitIds) ∨
         (∀ t : String, pname ≠ .str t)) :
    ∃ msg, addUnitProperty S uid pname d = .error (.valueError msg) := by
  rcases h with h | ⟨u, rfl, hu⟩ | h
  · cases uid with
    | int u => exact absurd rfl (h u)
    | str t => exact ⟨_, rfl⟩
    | float q => exact ⟨_, rfl⟩
  · exact ⟨"Non-valid unit_id", by simp [addUnitProperty, hu]⟩
  · cases uid with
    | int u =>
      by_cases hu : u ∈ S.unitIds
      · cases pname with
        | int n => exact ⟨"property_name must be a string", by simp [addUnitProperty, hu]⟩
        | str t => exact absurd rfl (h t)
        | float q => exact ⟨"property_name must be a string", by simp [addUnitProperty, hu]⟩
      · exact ⟨"Non-valid unit_id", by simp [addUnitProperty, hu]⟩
    | str t => exact ⟨_, rfl⟩
    | float q => exact ⟨_, rfl⟩

/-- Witness for C8: a non-int unit id on a concrete extractor. -/
theorem addUnitProperty_invalid_witness :
    ∃ msg, addUnitProperty exampleSorting (.str "x") (.str "quality") (.float 1) =
      .error (.valueError msg) :=
  addUnitProperty_invalid exampleSorting (.str "x") (.str "quality") (.float 1)
    (Or.inl fun _ h => nomatch h)

/-- C7: for an absent epoch name both `removeEpoch` and `getEpochInfo`
fail with the `ValueError` (`NotFound`) — raised before any mutation, so
the store is unchanged; after a successful `removeEpoch` the name is gone,
so `getEpochInfo` fails; for a present name neither operation fails. -/
theorem epoch_missing_notFound (E : Epochs) (name : String) :
    (dictGet E name = none →
      removeEpoch E name = .error (.valueError "This epoch has not been added") ∧
      getEpochInfo E name = .error (.valueError "This epoch has not been added")) ∧
    (∀ E', removeEpoch E name = .ok E' →
      getEpochInfo E' name = .error (.valueError "This epoch has not been added")) ∧
    ((dictGet E name).isSome →
      (∃ E', removeEpoch E name = .ok E') ∧ ∃ info, getEpochInfo E name = .ok info) := by
  refine ⟨fun h => ⟨?_, ?_⟩, fun E' h => ?_, fun h => ⟨?_, ?_⟩⟩
  · simp [removeEpoch, h]
  · simp [getEpochInfo, h]
  · rw [removeEpoch_ok_eq h]
    simp [getEpochInfo, dictGet_dictErase_self]
  · exact ⟨dictErase E name, by simp [removeEpoch, h]⟩
  · rcases Option.isSome_iff_exists.1 h with ⟨info, hinfo⟩
    exact ⟨info, by simp [getEpochInfo, hinfo]⟩

/-- Witness for C7 on concrete stores: "b" is absent, "a" is present. -/
theorem epoch_missing_notFound_witness :
    (removeEpoch [("a", (⟨0, 10⟩ : Epoch))] "b" =
      .error (.valueError "This epoch has not been added")) ∧
    (getEpochInfo (dictErase [("a", (⟨0, 10⟩ : Epoch))] "a") "a" =
      .error (.valueError "This epoch has not been added")) ∧
    (∃ info, getEpochInfo [("a", (⟨0, 10⟩ : Epoch))] "a" = .ok info) :=
  ⟨((epoch_missing_notFound [("a", ⟨0, 10⟩)] "b").1 (by rfl)).1,
   (epoch_missing_notFound [("a", ⟨0, 10⟩)] "a").2.1 _ (by rfl),
   ((epoch_missing_notFound [("a", ⟨0, 10⟩)] "a").2.2 (by rfl)).2⟩

/-- C10: `addEpoch name` and a successful `removeEpoch name` change no
epoch other than `name`: `getEpochInfo` on any other name is unchanged. -/
theorem epoch_ops_local (E : Epochs) (name : String) (s e : Int) (n' : String)
    (h : n' ≠ name) :
    getEpochInfo (addEpoch E name s e) n' = getEpochInfo E n' ∧
    (∀ E', removeEpoch E name = .ok E' → getEpochInfo E' n' = getEpochInfo E n') := by
  constructor
  · unfold getEpochInfo addEpoch
    rw [dictGet_dictInsert_ne E _ h]
  · intro E' hE'
    rw [removeEpoch_ok_eq hE']
    unfold getEpochInfo
    rw [dictGet_dictErase_ne E h]

/-- Witness for C10 on a concrete store. -/
theorem epoch_ops_local_witness :
    ("b" ≠ "a") ∧
    (getEpochInfo (addEpoch [("a", (⟨0, 10⟩ : Epoch)), ("b", ⟨10, 20⟩)] "a" 5 6) "b" =
        getEpochInfo [("a", (⟨0, 10⟩ : Epoch)), ("b", ⟨10, 20⟩)] "b" ∧
      ∀ E', removeEpoch [("a", (⟨0, 10⟩ : Epoch)), ("b", ⟨10, 20⟩)] "a" = .ok E' →
        getEpochInfo E' "b" = getEpochInfo [("a", (⟨0, 10⟩ : Epoch)), ("b", ⟨10, 20⟩)] "b") :=
  ⟨by decide, epoch_ops_local [("a", ⟨0, 10⟩), ("b", ⟨10, 20⟩)] "a" 5 6 "b" (by decide)⟩

/-- C6 counterexample: `addEpoch` performs no validation of the frames, so
it happily stores an epoch with a negative start frame and an end frame
below the start frame, violating the claimed invariant. -/
theorem addEpoch_no_validation :
    addEpoch [] "x" (-5) (-10) = [("x", { start_frame := -5, end_frame := -10 })] ∧
    ¬ epochWF { start_frame := -5, end_frame := -10 } :=
  ⟨rfl, by decide⟩

/-- C6 (amended): the well-formedness invariant is preserved by `addEpoch`
only when the caller passes `0 ≤ start_frame ≤ end_frame` (the code itself
checks nothing), and unconditionally by a successful `removeEpoch`. -/
theorem addEpoch_removeEpoch_preserve_wf (E : Epochs) (name : String) (s e : Int)
    (hE : ∀ p ∈ E, epochWF p.2) (hs : 0 ≤ s) (hse : s ≤ e) :
    (∀ p ∈ addEpoch E name s e, epochWF p.2) ∧
    (∀ E', removeEpoch E name = .ok E' → ∀ p ∈ E', epochWF p.2) := by
  constructor
  · intro p hp
    rcases mem_dictInsert hp with h | h
    · exact hE p h
    · rw [h]
      exact ⟨hs, hse⟩
  · intro E' hE' p hp
    rw [removeEpoch_ok_eq hE'] at hp
    exact hE p (List.mem_filter.1 hp).1

/-- Witness for C6 (amended) on a concrete well-formed store. -/
theorem addEpoch_removeEpoch_preserve_wf_witness :
    (∀ p ∈ [("a", (⟨0, 10⟩ : Epoch))], epochWF p.2) ∧ (0 : Int) ≤ 10 ∧ (10 : Int) ≤ 20 ∧
    ((∀ p ∈ addEpoch [("a", (⟨0, 10⟩ : Epoch))] "b" 10 20, epochWF p.2) ∧
      (∀ E', removeEpoch [("a", (⟨0, 10⟩ : Epoch))] "b" = .ok E' → ∀ p ∈ E', epochWF p.2)) :=
  ⟨by decide, by decide, by decide,
   addEpoch_removeEpoch_preserve_wf [("a", ⟨0, 10⟩)] "b" 10 20 (by decide) (by decide) (by decide)⟩

/-! ## Epoch name ordering (C5) -/

theorem pyStrLtAux_trans {a b c : List Char} (h1 : pyStrLtAux a b = true)
    (h2 : pyStrLtAux b c = true) : pyStrLtAux a c = true := by
  induction a generalizing b c with
  | nil =>
    cases b with
    | nil => simp [pyStrLtAux] at h1
    | cons y ys =>
      cases c with
      | nil => simp [pyStrLtAux] at h2
      | cons z zs => simp [pyStrLtAux]
  | cons x xs ih =>
    cases b with
    | nil => simp [pyStrLtAux] at h1
    | cons y ys =>
      cases c with
      | nil => simp [pyStrLtAux] at h2
      | cons z zs =>
        by_cases hxy : x < y
        · by_cases hyz : y < z
          · simp [pyStrLtAux, lt_trans hxy hyz]
          · by_cases hzy : z < y
            · simp [pyStrLtAux, hyz, hzy] at h2
            · have hyz' : y = z := le_antisymm (not_lt.1 hzy) (not_lt.1 hyz)
              subst hyz'
              simp [pyStrLtAux, hxy]
        · by_cases hyx : y < x
          · simp [pyStrLtAux, hxy, hyx] at h1
          · have hxy' : x = y := le_antisymm (not_lt.1 hyx) (not_lt.1 hxy)
            subst hxy'
            simp only [pyStrLtAux, if_neg (lt_irrefl x)] at h1
            by_cases hxz : x < z
            · simp [pyStrLtAux, hxz]
            · by_cases hzx : z < x
              · simp [pyStrLtAux, hxz, hzx] at h2
              · have hxz' : x = z := le_antisymm (not_lt.1 hzx) (not_lt.1 hxz)
                subst hxz'
                simp only [pyStrLtAux, if_neg (lt_irrefl x)] at h2 ⊢
                exact ih h1 h2

theorem pyStrLtAux_connex : ∀ (a b : List Char),
    pyStrLtAux a b = true ∨ a = b ∨ pyStrLtAux b a = true
  | [], [] => Or.inr (Or.inl rfl)
  | [], _ :: _ => Or.inl (by simp [pyStrLtAux])
  | _ :: _, [] => Or.inr (Or.inr (by simp [pyStrLtAux]))
  | x :: xs, y :: ys => by
    rcases lt_trichotomy x y with h | h | h
    · exact Or.inl (by simp [pyStrLtAux, h])
    · subst h
      rcases pyStrLtAux_connex xs ys with h | h | h
      · exact Or.inl (by simp [pyStrLtAux, lt_irrefl, h])
      · exact Or.inr (Or.inl (by rw [h]))
      · exact Or.inr (Or.inr (by simp [pyStrLtAux, lt_irrefl, h]))
    · exact Or.inr (Or.inr (by simp [pyStrLtAux, h]))

theorem pyStrLt_trans {a b c : String} (h1 : pyStrLt a b = true)
    (h2 : pyStrLt b c = true) : pyStrLt a c = true :=
  pyStrLtAux_trans h1 h2

theorem pyStrLt_connex (a b : String) :
    pyStrLt a b = true ∨ a = b ∨ pyStrLt b a = true := by
  rcases pyStrLtAux_connex a.data b.data with h | h | h
  · exact Or.inl h
  · refine Or.inr (Or.inl ?_)
    cases a; cases b; simp_all
  · exact Or.inr (Or.inr h)

theorem pairLe_trans (a b c : Int × String) (h1 : pairLe a b) (h2 : pairLe b c) :
    pairLe a c := by
  simp only [pairLe, Bool.or_eq_true, Bool.and_eq_true, decide_eq_true_eq] at h1 h2 ⊢
  rcases h1 with h1 | ⟨he1, hs1⟩ <;> rcases h2 with h2 | ⟨he2, hs2⟩
  · exact Or.inl (lt_trans h1 h2)
  · exact Or.inl (he2 ▸ h1)
  · exact Or.inl (he1 ▸ h2)
  · refine Or.inr ⟨he1.trans he2, ?_⟩
    rcases hs1 with hs1 | hs1 <;> rcases hs2 with hs2 | hs2
    · exact Or.inl (pyStrLt_trans hs1 hs2)
    · exact Or.inl (hs2 ▸ hs1)
    · exact Or.inl (hs1 ▸ hs2)
    · exact Or.inr (hs1.trans hs2)

theorem pairLe_total (a b : Int × String) : pairLe a b || pairLe b a := by
  simp only [pairLe, Bool.or_eq_true, Bool.and_eq_true, decide_eq_true_eq]
  rcases lt_trichotomy a.1 b.1 with h | h | h
  · exact Or.inl (Or.inl h)
  · rcases pyStrLt_connex a.2 b.2 with hs | hs | hs
    · exact Or.inl (Or.inr ⟨h, Or.inl hs⟩)
    · exact Or.inl (Or.inr ⟨h, Or.inr hs⟩)
    · exact Or.inr (Or.inr ⟨h.symm, Or.inl hs⟩)
  · exact Or.inr (Or.inl h)

unseal List.merge List.mergeSort in
/-- C5 (amended): `getEpochNames` returns a permutation of the stored
names ordered by ascending start frame with ties broken by ascending
*name* (lexicographic on the `(start_frame, name)` pair) — not by
insertion order; the claim's `a`/`b` example still holds in both insertion
orders because those start frames differ. -/
theorem getEpochNames_sorted (E : Epochs) :
    (getEpochNames E).Perm (E.map Prod.fst) ∧
    (getEpochNames E).Pairwise (fun n₁ n₂ =>
      epochKey E n₁ < epochKey E n₂ ∨
        (epochKey E n₁ = epochKey E n₂ ∧ (pyStrLt n₁ n₂ = true ∨ n₁ = n₂))) ∧
    getEpochNames (addEpoch (addEpoch [] "a" 0 10) "b" 10 20) = ["a", "b"] ∧
    getEpochNames (addEpoch (addEpoch [] "b" 10 20) "a" 0 10) = ["a", "b"] := by
  have hrepr : getEpochNames E =
      (((E.map Prod.fst).map fun n => (epochKey E n, n)).mergeSort pairLe).map Prod.snd := rfl
  refine ⟨?_, ?_, ?_, ?_⟩
  · rw [hrepr]
    have h1 := (List.mergeSort_perm ((E.map Prod.fst).map fun n => (epochKey E n, n)) pairLe).map
      Prod.snd
    refine h1.trans ?_
    rw [List.map_map, List.map_map]
    rw [show List.map ((Prod.snd ∘ fun n => (epochKey E n, n)) ∘ Prod.fst) E =
      List.map Prod.fst E from List.map_congr_left fun a _ => rfl]
  · rw [hrepr]
    rw [List.pairwise_map]
    have hsorted := List.sorted_mergeSort
      (fun a b c => pairLe_trans a b c) (fun a b => pairLe_total a b)
      ((E.map Prod.fst).map fun n => (epochKey E n, n))
    refine hsorted.imp_of_mem ?_
    intro a b ha hb hle
    have hmem : ∀ x ∈ ((E.map Prod.fst).map fun n => (epochKey E n, n)).mergeSort pairLe,
        x.1 = epochKey E x.2 := by
      intro x hx
      rw [List.mem_mergeSort] at hx
      rcases List.mem_map.1 hx with ⟨n, _, rfl⟩
      rfl
    have ha' := hmem a ha
    have hb' := hmem b hb
    simp only [pairLe, Bool.or_eq_true, Bool.and_eq_true, decide_eq_true_eq] at hle
    rw [ha', hb'] at hle
    exact hle
  · decide
  · decide

unseal List.merge List.mergeSort in
/-- C5 counterexample: two epochs with equal start frames, inserted as "b"
then "a".  Insertion order is ["b", "a"], but `getEpochNames` returns
["a", "b"]: Python's `sorted(zip(starts, names))` breaks ties by
comparing the names, so the order is not stable in insertion order. -/
theorem getEpochNames_tie_not_insertion_order :
    (addEpoch (addEpoch [] "b" 5 10) "a" 5 10).map Prod.fst = ["b", "a"] ∧
    getEpochNames (addEpoch (addEpoch [] "b" 5 10) "a" 5 10) = ["a", "b"] ∧
    getEpochNames (addEpoch (addEpoch [] "b" 5 10) "a" 5 10) ≠ ["b", "a"] := by
  refine ⟨by decide, by decide, by decide⟩

/-! ## Snippet extraction (C1, C2, C3) -/

theorem getD_map_range {α : Type} (f : Nat → α) (n j : Nat) (d : α) (h : j < n) :
    ((List.range n).map f).getD j d = f j := by
  rw [List.getD_eq_getElem?_getD]
  simp [List.getElem?_map, List.getElem?_range, h]

theorem getD_map_lt {α β : Type} (f : α → β) (l : List α) (i : Nat) (d : β) (d₀ : α)
    (h : i < l.length) : (l.map f).getD i d = f (l.getD i d₀) := by
  rw [List.getD_eq_getElem?_getD, List.getD_eq_getElem?_getD]
  simp [List.getElem?_map, List.getElem?_eq_getElem, h]

theorem zipWith_map_same {α β γ δ : Type} (f : β → γ → δ) (g : α → β) (h : α → γ)
    (l : List α) : List.zipWith f (l.map g) (l.map h) = l.map fun x => f (g x) (h x) := by
  induction l with
  | nil => rfl
  | cons x xs ih => simp [ih]

/-- The slice-assignment step of `getSnippets`, characterized: writing the
trace window `[r0, r1)` into buffer positions `[b0, b1)` of a zero row of
length `L` produces, at each position `j`, the sample at frame `t + j`
when that frame is in range and `0` otherwise — provided the buffer and
range bounds are consistent (`hiff`, `hoff`, `hw`), as they are at every
call site. -/
theorem overwriteSlice_spec (f : Nat → Int) (L : Nat) (b0 b1 r0 r1 t N : Int)
    (hiff : ∀ j : Nat, j < L → ((b0 ≤ (j : Int) ∧ (j : Int) < b1) ↔
      (0 ≤ t + (j : Int) ∧ t + (j : Int) < N)))
    (hoff : r0 = t + b0) (hr0 : 0 ≤ r0) (hw : b1 - b0 = r1 - r0) :
    overwriteSlice (List.replicate L 0) b0 b1
      ((List.range (r1 - r0).toNat).map fun i => f (r0.toNat + i)) =
    (List.range L).map fun (j : Nat) =>
      if 0 ≤ t + (j : Int) ∧ t + (j : Int) < N then f (t + (j : Int)).toNat else 0 := by
  unfold overwriteSlice
  rw [List.length_replicate]
  apply List.map_congr_left
  intro j hj
  have hjL : j < L := List.mem_range.1 hj
  by_cases hcond : b0 ≤ (j : Int) ∧ (j : Int) < b1
  · rw [if_pos hcond, if_pos ((hiff j hjL).1 hcond)]
    have hidx : ((j : Int) - b0).toNat < (r1 - r0).toNat := by omega
    rw [getD_map_range _ _ _ _ hidx]
    congr 1
    omega
  · rw [if_neg hcond, if_neg (fun hr => hcond ((hiff j hjL).2 hr))]
    rw [List.getD_eq_getElem?_getD]
    simp [List.getElem?_replicate, hjL]

/-- Closed form of one `getSnippets` chunk: for any start frame `s` and
valid channel ids, the chunk is always produced without error, and its
entry for channel `c`, column `j`, is the sample at frame `s - lb + j`
when `s` is in range and that frame is in range, and `0` otherwise. -/
theorem snippetChunk_closed (R : Recording) (lb la : Nat) (s : Int) (cids : List Nat)
    (hc : ∀ c ∈ cids, c < R.numChannels) :
    snippetChunk R lb la s cids = .ok (cids.map fun c =>
      (List.range (lb + la)).map fun (j : Nat) =>
        if 0 ≤ s ∧ s < (R.numFrames : Int) ∧
            0 ≤ s - (lb : Int) + (j : Int) ∧ s - (lb : Int) + (j : Int) < (R.numFrames : Int)
        then R.data c (s - (lb : Int) + (j : Int)).toNat else 0) := by
  by_cases hin : 0 ≤ s ∧ s < (R.numFrames : Int)
  · obtain ⟨hin0, hinN⟩ := hin
    by_cases hL : s - (lb : Int) < 0 <;> by_cases hR : (R.numFrames : Int) ≤ s + (la : Int) <;>
      · simp only [snippetChunk, if_pos (And.intro hin0 hinN), if_pos, if_neg, hL, hR,
          ite_true, ite_false, if_true, if_false]
        rw [getTraces, if_pos (And.intro (by omega) (And.intro (by omega)
          (And.intro (by omega) hc)))]
        dsimp only
        rw [zipWith_map_same]
        congr 1
        apply List.map_congr_left
        intro c _
        rw [overwriteSlice_spec (R.data c) (lb + la) _ _ _ _ (s - (lb : Int))
          (R.numFrames : Int) (fun j hj => by constructor <;> intro <;> omega)
          (by omega) (by omega) (by omega)]
        apply List.map_congr_left
        intro j _
        exact if_congr ⟨fun hh => ⟨hin0, hinN, hh.1, hh.2⟩,
          fun hh => ⟨hh.2.2.1, hh.2.2.2⟩⟩ rfl rfl
  · simp only [snippetChunk, if_neg hin]
    congr 1
    apply List.map_congr_left
    intro c _
    rw [show ((List.range (lb + la)).map fun (j : Nat) =>
        if 0 ≤ s ∧ s < (R.numFrames : Int) ∧
            0 ≤ s - (lb : Int) + (j : Int) ∧ s - (lb : Int) + (j : Int) < (R.numFrames : Int)
        then R.data c (s - (lb : Int) + (j : Int)).toNat else 0) =
      (List.range (lb + la)).map fun (_ : Nat) => (0 : Int) from
        List.map_congr_left fun j _ => if_neg fun hh => hin ⟨hh.1, hh.2.1⟩]
    rw [List.map_const', List.length_range]

/-- Closed form of the whole `getSnippets` loop: with valid channel ids it
never raises, and yields the per-start-frame chunks. -/
theorem snippetsLoop_closed (R : Recording) (lb la : Nat) (cids : List Nat)
    (hc : ∀ c ∈ cids, c < R.numChannels) (frames : List Int) :
    snippetsLoop R lb la cids frames = .ok (frames.map fun s => cids.map fun c =>
      (List.range (lb + la)).map fun (j : Nat) =>
        if 0 ≤ s ∧ s < (R.numFrames : Int) ∧
            0 ≤ s - (lb : Int) + (j : Int) ∧ s - (lb : Int) + (j : Int) < (R.numFrames : Int)
        then R.data c (s - (lb : Int) + (j : Int)).toNat else 0) := by
  induction frames with
  | nil => rfl
  | cons s rest ih =>
    rw [snippetsLoop, snippetChunk_closed R lb la s cids hc, ih]
    rfl

/-- `getSnippets` with explicit channel ids, in closed form. -/
theorem getSnippets_closed (R : Recording) (lb la : Nat) (frames : List Int)
    (cids : List Nat) (hc : ∀ c ∈ cids, c < R.numChannels) :
    getSnippets R lb la frames (some cids) = .ok (frames.map fun s => cids.map fun c =>
      (List.range (lb + la)).map fun (j : Nat) =>
        if 0 ≤ s ∧ s < (R.numFrames : Int) ∧
            0 ≤ s - (lb : Int) + (j : Int) ∧ s - (lb : Int) + (j : Int) < (R.numFrames : Int)
        then R.data c (s - (lb : Int) + (j : Int)).toNat else 0) :=
  snippetsLoop_closed R lb la cids hc frames

/-- `getSnippets` with the default channel ids (`range(numChannels)`), in
closed form. -/
theorem getSnippets_none_closed (R : Recording) (lb la : Nat) (frames : List Int) :
    getSnippets R lb la frames none =
      .ok (frames.map fun s => (List.range R.numChannels).map fun c =>
        (List.range (lb + la)).map fun (j : Nat) =>
          if 0 ≤ s ∧ s < (R.numFrames : Int) ∧
              0 ≤ s - (lb : Int) + (j : Int) ∧ s - (lb : Int) + (j : Int) < (R.numFrames : Int)
          then R.data c (s - (lb : Int) + (j : Int)).toNat else 0) :=
  snippetsLoop_closed R lb la (List.range R.numChannels)
    (fun _ hcm => List.mem_range.1 hcm) frames

/-- The chunk of an out-of-range start frame is all zeros. -/
theorem zero_chunk (R : Recording) (lb la : Nat) (t : Int)
    (hout : t < 0 ∨ (R.numFrames : Int) ≤ t) (cl : List Nat) :
    (cl.map fun c => (List.range (lb + la)).map fun (j : Nat) =>
      if 0 ≤ t ∧ t < (R.numFrames : Int) ∧
          0 ≤ t - (lb : Int) + (j : Int) ∧ t - (lb : Int) + (j : Int) < (R.numFrames : Int)
      then R.data c (t - (lb : Int) + (j : Int)).toNat else 0) =
    List.replicate cl.length (List.replicate (lb + la) (0 : Int)) := by
  have hrow : ∀ c : Nat, ((List.range (lb + la)).map fun (j : Nat) =>
      if 0 ≤ t ∧ t < (R.numFrames : Int) ∧
          0 ≤ t - (lb : Int) + (j : Int) ∧ t - (lb : Int) + (j : Int) < (R.numFrames : Int)
      then R.data c (t - (lb : Int) + (j : Int)).toNat else 0) =
      List.replicate (lb + la) (0 : Int) := by
    intro c
    rw [show ((List.range (lb + la)).map fun (j : Nat) =>
        if 0 ≤ t ∧ t < (R.numFrames : Int) ∧
            0 ≤ t - (lb : Int) + (j : Int) ∧ t - (lb : Int) + (j : Int) < (R.numFrames : Int)
        then R.data c (t - (lb : Int) + (j : Int)).toNat else 0) =
      (List.range (lb + la)).map fun (_ : Nat) => (0 : Int) from
        List.map_congr_left fun j _ => if_neg (by omega)]
    rw [List.map_const', List.length_range]
  rw [show (cl.map fun c => (List.range (lb + la)).map fun (j : Nat) =>
      if 0 ≤ t ∧ t < (R.numFrames : Int) ∧
          0 ≤ t - (lb : Int) + (j : Int) ∧ t - (lb : Int) + (j : Int) < (R.numFrames : Int)
      then R.data c (t - (lb : Int) + (j : Int)).toNat else 0) =
    cl.map fun _ => List.replicate (lb + la) (0 : Int) from
      List.map_congr_left fun c _ => hrow c]
  rw [List.map_const']

/-- C1: for an in-range start frame `s` and valid channel ids,
`getSnippets` with the single start frame `s` raises nothing and returns
one snippet of shape `(len(channelIds), lenBefore+lenAfter)` whose column
`j` holds the channel's sample at frame `s - lenBefore + j` when that
frame lies in `[0, numFrames)` and zero otherwise (left and right
overhangs clipped independently); a window lying fully inside the
recording equals `getTraces(s-lenBefore, s+lenAfter, channelIds)`; and for
every list of start frames the returned list has exactly one snippet per
start frame. -/
theorem getSnippets_inrange_single (R : Recording) (lb la : Nat) (s : Int)
    (cids : List Nat) (hc : ∀ c ∈ cids, c < R.numChannels)
    (h0 : 0 ≤ s) (hN : s < (R.numFrames : Int)) :
    ∃ chunk,
      getSnippets R lb la [s] (some cids) = .ok [chunk] ∧
      chunk.length = cids.length ∧
      (∀ row ∈ chunk, row.length = lb + la) ∧
      (∀ ci, ci < cids.length → ∀ j, j < lb + la →
        (chunk.getD ci []).getD j 0 =
          if 0 ≤ s - (lb : Int) + (j : Int) ∧ s - (lb : Int) + (j : Int) < (R.numFrames : Int)
          then R.data (cids.getD ci 0) (s - (lb : Int) + (j : Int)).toNat else 0) ∧
      ((lb : Int) ≤ s → s + (la : Int) ≤ (R.numFrames : Int) →
        getTraces R (s - (lb : Int)) (s + (la : Int)) cids = .ok chunk) ∧
      (∀ start_frames : List Int, ∃ out,
        getSnippets R lb la start_frames (some cids) = .ok out ∧
        out.length = start_frames.length) := by
  refine ⟨cids.map fun c => (List.range (lb + la)).map fun (j : Nat) =>
      if 0 ≤ s ∧ s < (R.numFrames : Int) ∧ 0 ≤ s - (lb : Int) + (j : Int) ∧
          s - (lb : Int) + (j : Int) < (R.numFrames : Int)
      then R.data c (s - (lb : Int) + (j : Int)).toNat else 0,
    getSnippets_closed R lb la [s] cids hc, by simp, ?_, ?_, ?_, ?_⟩
  · intro row hrow
    rcases List.mem_map.1 hrow with ⟨c, _, rfl⟩
    simp
  · intro ci hci j hj
    rw [getD_map_lt _ cids ci [] 0 hci]
    rw [getD_map_range _ _ _ _ hj]
    exact if_congr ⟨fun hh => ⟨hh.2.2.1, hh.2.2.2⟩, fun hh => ⟨h0, hN, hh.1, hh.2⟩⟩ rfl rfl
  · intro hlb hla
    rw [getTraces, if_pos (And.intro (by omega) (And.intro (by omega)
      (And.intro (by omega) hc)))]
    congr 1
    apply List.map_congr_left
    intro c _
    rw [show (s + (la : Int) - (s - (lb : Int))).toNat = lb + la from by omega]
    apply List.map_congr_left
    intro j hj
    have hj' : j < lb + la := List.mem_range.1 hj
    rw [if_pos (And.intro h0 (And.intro hN (And.intro (by omega) (by omega))))]
    congr 1
    omega
  · intro start_frames
    exact ⟨_, getSnippets_closed R lb la start_frames cids hc, by simp⟩

/-- Witness for C1 on a concrete recording, `lenBefore = lenAfter = 2`,
start frame `1`, channel list `[0]`. -/
theorem getSnippets_inrange_single_witness :
    (∀ c ∈ [0], c < exampleRec.numChannels) ∧ (0 : Int) ≤ 1 ∧
    (1 : Int) < (exampleRec.numFrames : Int) ∧
    (∃ chunk,
      getSnippets exampleRec 2 2 [1] (some [0]) = .ok [chunk] ∧
      chunk.length = [0].length ∧
      (∀ row ∈ chunk, row.length = 2 + 2) ∧
      (∀ ci, ci < [0].length → ∀ j, j < 2 + 2 →
        (chunk.getD ci []).getD j 0 =
          if 0 ≤ (1 : Int) - (2 : Nat) + (j : Int) ∧
              (1 : Int) - (2 : Nat) + (j : Int) < (exampleRec.numFrames : Int)
          then exampleRec.data ([0].getD ci 0) ((1 : Int) - (2 : Nat) + (j : Int)).toNat
          else 0) ∧
      (((2 : Nat) : Int) ≤ 1 → (1 : Int) + ((2 : Nat) : Int) ≤ (exampleRec.numFrames : Int) →
        getTraces exampleRec ((1 : Int) - (2 : Nat)) ((1 : Int) + (2 : Nat)) [0] = .ok chunk) ∧
      (∀ start_frames : List Int, ∃ out,
        getSnippets exampleRec 2 2 start_frames (some [0]) = .ok out ∧
        out.length = start_frames.length)) :=
  ⟨by decide, by decide, by decide,
   getSnippets_inrange_single exampleRec 2 2 1 [0] (by decide) (by decide) (by decide)⟩

/-- C2: an out-of-range start frame (negative or `≥ numFrames`) produces,
at its position in the output, an all-zero snippet of shape
`(numChannels, lenBefore+lenAfter)` with no error raised — in contrast to
`getTraces`, which fails with `InvalidRange` on any out-of-bounds or
inverted bounds. -/
theorem getSnippets_outofrange_zero (R : Recording) (lb la : Nat)
    (start_frames : List Int) (i : Nat) (hi : i < start_frames.length)
    (hout : start_frames.getD i 0 < 0 ∨ (R.numFrames : Int) ≤ start_frames.getD i 0) :
    ∃ out,
      getSnippets R lb la start_frames none = .ok out ∧
      out.length = start_frames.length ∧
      out.getD i [] = List.replicate R.numChannels (List.replicate (lb + la) (0 : Int)) ∧
      (∀ a b : Int, a < 0 ∨ b < a ∨ (R.numFrames : Int) < b →
        getTraces R a b (List.range R.numChannels) = .error .invalidRange) := by
  refine ⟨_, getSnippets_none_closed R lb la start_frames, by simp, ?_, ?_⟩
  · rw [getD_map_lt _ start_frames i [] 0 hi]
    rw [zero_chunk R lb la (start_frames.getD i 0) hout (List.range R.numChannels)]
    rw [List.length_range]
  · intro a b hab
    rw [getTraces, if_neg]
    rintro ⟨h1, h2, h3, -⟩
    omega

/-- Witness for C2 on a concrete recording with start frame 200 ≥ 100. -/
theorem getSnippets_outofrange_zero_witness :
    0 < [(200 : Int)].length ∧
    (([(200 : Int)].getD 0 0 < 0) ∨ ((exampleRec.numFrames : Int) ≤ [(200 : Int)].getD 0 0)) ∧
    (∃ out,
      getSnippets exampleRec 3 4 [(200 : Int)] none = .ok out ∧
      out.length = [(200 : Int)].length ∧
      out.getD 0 [] =
        List.replicate exampleRec.numChannels (List.replicate (3 + 4) (0 : Int)) ∧
      (∀ a b : Int, a < 0 ∨ b < a ∨ (exampleRec.numFrames : Int) < b →
        getTraces exampleRec a b (List.range exampleRec.numChannels) =
          .error .invalidRange)) :=
  ⟨by decide, by decide,
   getSnippets_outofrange_zero exampleRec 3 4 [200] 0 (by decide) (by decide)⟩

/-- C3 counterexample: on a recording with 100 frames whose samples are
all nonzero, `getSnippets(10, 10, [-5])` returns an *entirely* zero
snippet (the start frame is out of range, so the code never reaches the
partial-clipping path); its last 5 columns are zero, not
`getTraces(0, 5)` as the claim states. -/
theorem getSnippets_neg5_counterexample :
    getSnippets exampleRec 10 10 [(-5 : Int)] none = .ok [[List.replicate 20 (0 : Int)]] ∧
    getTraces exampleRec 0 5 [0] = .ok [[1, 2, 3, 4, 5]] ∧
    (List.replicate 20 (0 : Int)).drop 15 ≠ [1, 2, 3, 4, 5] := by
  refine ⟨rfl, rfl, by decide⟩

/-- C3 (amended): with numFrames = 100, lenBefore = lenAfter = 10, the
start frame -5 is outside [0, numFrames), so the snippet is entirely
zero — all 20 columns, not only the first 15. -/
theorem getSnippets_neg5_all_zero (R : Recording) (h100 : R.numFrames = 100) :
    getSnippets R 10 10 [(-5 : Int)] none =
      .ok [List.replicate R.numChannels (List.replicate 20 (0 : Int))] := by
  rw [getSnippets_none_closed R 10 10 [(-5 : Int)]]
  rw [show ([(-5 : Int)].map fun s => (List.range R.numChannels).map fun c =>
      (List.range (10 + 10)).map fun (j : Nat) =>
        if 0 ≤ s ∧ s < (R.numFrames : Int) ∧
            0 ≤ s - ((10 : Nat) : Int) + (j : Int) ∧
            s - ((10 : Nat) : Int) + (j : Int) < (R.numFrames : Int)
        then R.data c (s - ((10 : Nat) : Int) + (j : Int)).toNat else 0) =
    [(List.range R.numChannels).map fun c =>
      (List.range (10 + 10)).map fun (j : Nat) =>
        if 0 ≤ (-5 : Int) ∧ (-5 : Int) < (R.numFrames : Int) ∧
            0 ≤ (-5 : Int) - ((10 : Nat) : Int) + (j : Int) ∧
            (-5 : Int) - ((10 : Nat) : Int) + (j : Int) < (R.numFrames : Int)
        then R.data c ((-5 : Int) - ((10 : Nat) : Int) + (j : Int)).toNat else 0] from rfl]
  rw [zero_chunk R 10 10 (-5) (Or.inl (by omega)) (List.range R.numChannels)]
  rw [List.length_range]

/-- Witness for C3 (amended) on the concrete recording with 100 frames. -/
theorem getSnippets_neg5_all_zero_witness :
    exampleRec.numFrames = 100 ∧
    getSnippets exampleRec 10 10 [(-5 : Int)] none =
      .ok [List.replicate exampleRec.numChannels (List.replicate 20 (0 : Int))] :=
  ⟨rfl, getSnippets_neg5_all_zero exampleRec rfl⟩

end SpikeExtractors
